import Mathlib

/-!
Verification of the `const_enum` crate (src/src/lib.rs).

The crate exports one declarative facility, `const_enum!`, which for a
specification

  `pub EnumType [Struct::field : field_type] { Name_0 : value_0, ... }`

expands to four generated items, one per internal rule of the facility:

* `def_enum`   : `#[repr(field_type)] enum EnumType { Name_i = value_i, ... }`
* `into_struct`: `impl Into<Struct> for EnumType` with body
                 `Struct { field: self as field_type }`
* `as_enum`    : `impl Struct { fn as_enum(&self) -> Result<EnumType, field_type> }`
                 matching `self.field` against each `value_i` in declaration
                 order, with a trailing wildcard arm returning `Err(self.field)`
* `def_const`  : `impl Struct { const Name_i: Struct = Struct { field: value_i }; }`

We reify the specification as a structure and embed each generated item as a
function over it.  The field type is an unsigned integer of `fieldWidth` bits,
so its representable domain is `[0, 2 ^ fieldWidth)` and the primitive cast
`self as field_type` reduces modulo `2 ^ fieldWidth`.
-/

/-- Decidable equality for `Except`, so that classification results can be
compared by evaluation. -/
instance {ε : Type _} {α : Type _} [DecidableEq ε] [DecidableEq α] :
    DecidableEq (Except ε α) := fun
  | Except.error a, Except.error b =>
      if h : a = b then Decidable.isTrue (by rw [h])
      else Decidable.isFalse (fun hc => h (Except.error.inj hc))
  | Except.error _, Except.ok _ => Decidable.isFalse (fun hc => Except.noConfusion hc)
  | Except.ok _, Except.error _ => Decidable.isFalse (fun hc => Except.noConfusion hc)
  | Except.ok a, Except.ok b =>
      if h : a = b then Decidable.isTrue (by rw [h])
      else Decidable.isFalse (fun hc => h (Except.ok.inj hc))

/-- A container struct of the supported shape: a single primitive classified
field, as in `Hello { data: u8 }`.  The field holds a natural number;
representability in the field type is the side condition `data < 2 ^ width`. -/
structure Container where
  data : Nat
  deriving DecidableEq

/-- A reified `const_enum!` specification: the bit width of the primitive
field type and the ordered list of declared `(name, value)` pairs. -/
structure ConstEnumSpec where
  fieldWidth : Nat
  variants : List (String × Nat)

/-- Size of the representable domain of the field type: raw values range over
`[0, 2 ^ fieldWidth)`. -/
def ConstEnumSpec.domain (s : ConstEnumSpec) : Nat := 2 ^ s.fieldWidth

/-- A value of the generated enum type.  By construction it is exactly one of
the declared variants, identified here by its position in the declaration
list (the generated enum has one nullary constructor per entry). -/
abbrev Variant (s : ConstEnumSpec) : Type := Fin s.variants.length

/-- The discriminant bound to a variant by the `def_enum` rule
(`$Variance = $Value`): casting the enum value to the field type yields the
declared raw value. -/
def variantValue (s : ConstEnumSpec) (v : Variant s) : Nat :=
  (s.variants.get v).2

/-- The arm-by-arm match generated by the `as_enum` rule over the declared
arms: `self.field` is compared against each `$Value` in declaration order;
the first matching arm yields `Ok` of its variant, and the trailing wildcard
arm yields `Err(self.field)`. -/
def as_enum_arms : (arms : List (String × Nat)) → Nat → Except Nat (Fin arms.length)
  | [], data => Except.error data
  | hd :: rest, data =>
      if data = hd.2 then Except.ok ⟨0, Nat.succ_pos rest.length⟩
      else (as_enum_arms rest data).map Fin.succ

/-- The generated `as_enum` method: classify the container's field value,
returning `Ok(variant)` on a match and `Err(raw)` otherwise
(`Ok` plays the role of `Known`, `Err` the role of `Unknown`). -/
def as_enum (s : ConstEnumSpec) (c : Container) : Except Nat (Variant s) :=
  as_enum_arms s.variants c.data

/-- The generated `Into<Struct>` conversion (`into_struct` rule):
`Struct { field: self as field_type }`.  The cast of the discriminant to the
field type reduces modulo the domain size. -/
def into_struct (s : ConstEnumSpec) (v : Variant s) : Container :=
  { data := variantValue s v % s.domain }

/-- The generated named constants (`def_const` rule):
`const $Variance: $Struct = $Struct { $Field: $Value }`, one container
constant per declared variant, built directly from the declared literal. -/
def def_const (s : ConstEnumSpec) (v : Variant s) : Container :=
  { data := (s.variants.get v).2 }

/-- Well-formedness of a specification, enforced at definition time when the
expansion of `def_enum` and `def_const` is compiled: variant names are
distinct, discriminant values are distinct, and every declared value is
representable in the field type. -/
def specWellFormed (s : ConstEnumSpec) : Prop :=
  (s.variants.map Prod.fst).Nodup ∧
  (s.variants.map Prod.snd).Nodup ∧
  ∀ p ∈ s.variants, p.2 < s.domain

instance (s : ConstEnumSpec) : Decidable (specWellFormed s) :=
  inferInstanceAs (Decidable (_ ∧ _ ∧ _))

/-- Modelled from the spec: the optional validation interval of the
specification (data model and classifier step 1) appears in the spec but the
variant of the facility carrying it is not among the sources; when an
inclusive interval `[low, high]` is declared, the classifier returns
`Unknown(value)` for a field value outside it, strictly before the generated
variant match is consulted. -/
def as_enum_interval (s : ConstEnumSpec) (low high : Nat) (c : Container) :
    Except Nat (Variant s) :=
  if c.data < low ∨ high < c.data then Except.error c.data
  else as_enum_arms s.variants c.data

/-- Modelled from the spec: the definition-time validator.  It checks variant
name uniqueness, variant value uniqueness, membership of every declared value
in the field type's representable domain and, when a validation interval is
declared, membership of every declared value in that interval. -/
def validateSpec (s : ConstEnumSpec) (interval : Option (Nat × Nat)) : Bool :=
  decide (s.variants.map Prod.fst).Nodup &&
  decide (s.variants.map Prod.snd).Nodup &&
  s.variants.all (fun p => decide (p.2 < s.domain)) &&
  (match interval with
   | none => true
   | some (low, high) =>
       s.variants.all (fun p => decide (low ≤ p.2) && decide (p.2 ≤ high)))

/-- Modelled from the spec: definition-time gating.  A classifier and a
reconstructor are produced only for a specification the validator accepts;
an ill-formed specification is rejected before either exists. -/
def defineEnum (s : ConstEnumSpec) (interval : Option (Nat × Nat)) :
    Option ((Container → Except Nat (Variant s)) × (Variant s → Container)) :=
  if validateSpec s interval then some (as_enum s, into_struct s) else none

/-- The example specification from the crate documentation:
`HelloEnum [Hello::data:u8]` with variants
`V0: 0, V1: 1, V2: 12, V3: 13, V4: 22`. -/
def HelloSpec : ConstEnumSpec :=
  { fieldWidth := 8
    variants := [("V0", 0), ("V1", 1), ("V2", 12), ("V3", 13), ("V4", 22)] }

/-! Helper lemmas about `Except.map` and the generated match arms. -/

theorem except_map_eq_ok {ε α β : Type _} (f : α → β) (e : Except ε α) (b : β)
    (h : e.map f = Except.ok b) : ∃ a, e = Except.ok a ∧ f a = b := by
  cases e with
  | error d => simp [Except.map] at h
  | ok a => exact ⟨a, rfl, by simpa [Except.map] using h⟩

theorem except_map_eq_error {ε α β : Type _} (f : α → β) (e : Except ε α) (d : ε) :
    e.map f = Except.error d ↔ e = Except.error d := by
  cases e <;> simp [Except.map]

/-- Soundness of the generated match: if some arm fires with variant `i`,
then the value declared for `i` is the scrutinised field value. -/
theorem as_enum_arms_ok_value (arms : List (String × Nat)) (data : Nat)
    (i : Fin arms.length) (h : as_enum_arms arms data = Except.ok i) :
    (arms.get i).2 = data := by
  induction arms with
  | nil => exact i.elim0
  | cons hd rest ih =>
      by_cases hv : data = hd.2
      · simp only [as_enum_arms, if_pos hv] at h
        obtain rfl := Except.ok.inj h
        exact hv.symm
      · simp only [as_enum_arms, if_neg hv] at h
        obtain ⟨j, hj, hji⟩ := except_map_eq_ok Fin.succ _ i h
        subst hji
        rcases j with ⟨jv, hjv⟩
        exact ih ⟨jv, hjv⟩ hj

/-- Completeness of the trailing wildcard: the match produces `Err e` exactly
when `e` is the scrutinised value and no declared arm matches it. -/
theorem as_enum_arms_error_iff (arms : List (String × Nat)) (data e : Nat) :
    as_enum_arms arms data = Except.error e ↔
      e = data ∧ ∀ p ∈ arms, p.2 ≠ data := by
  induction arms with
  | nil => simp [as_enum_arms, eq_comm]
  | cons hd rest ih =>
      by_cases hv : data = hd.2
      · simp only [as_enum_arms, if_pos hv]
        constructor
        · intro h; exact absurd h (fun hc => Except.noConfusion hc)
        · rintro ⟨-, hall⟩
          exact absurd hv.symm (hall hd (List.mem_cons_self hd rest))
      · simp only [as_enum_arms, if_neg hv, except_map_eq_error, ih,
          List.mem_cons]
        constructor
        · rintro ⟨rfl, hall⟩
          exact ⟨rfl, fun p hp => hp.elim (fun hph => hph ▸ fun hc => hv hc.symm)
            (fun hpr => hall p hpr)⟩
        · rintro ⟨rfl, hall⟩
          exact ⟨rfl, fun p hp => hall p (Or.inr hp)⟩

/-- First-match determinacy under distinct declared values: scrutinising the
value declared for variant `i` makes exactly arm `i` fire. -/
theorem as_enum_arms_round_trip (arms : List (String × Nat))
    (hnd : (arms.map Prod.snd).Nodup) (i : Fin arms.length) :
    as_enum_arms arms (arms.get i).2 = Except.ok i := by
  induction arms with
  | nil => exact i.elim0
  | cons hd rest ih =>
      rw [List.map_cons, List.nodup_cons] at hnd
      rcases i with ⟨iv, hiv⟩
      cases iv with
      | zero => simp [as_enum_arms]
      | succ j =>
          have hjlt : j < rest.length := Nat.lt_of_succ_lt_succ hiv
          have hget : ((hd :: rest).get ⟨j + 1, hiv⟩).2 = (rest.get ⟨j, hjlt⟩).2 := rfl
          have hmem : (rest.get ⟨j, hjlt⟩).2 ∈ rest.map Prod.snd :=
            List.mem_map_of_mem Prod.snd (rest.get_mem j hjlt)
          have hne : (rest.get ⟨j, hjlt⟩).2 ≠ hd.2 := by
            intro hc
            exact hnd.1 (hc ▸ hmem)
          rw [hget]
          simp only [as_enum_arms, if_neg hne, ih hnd.2 ⟨j, hjlt⟩]
          rfl

/-- C1: for every declared variant `v` of a well-formed specification,
reconstructing a container from `v` with the generated `Into<Struct>`
conversion and classifying it with `as_enum` yields `Ok v` (the `Known`
case for the same variant). -/
theorem C1_round_trip (s : ConstEnumSpec) (h : specWellFormed s) (v : Variant s) :
    as_enum s (into_struct s v) = Except.ok v := by
  have hlt : variantValue s v < s.domain := h.2.2 _ (s.variants.get_mem v.1 v.2)
  unfold as_enum into_struct
  rw [Nat.mod_eq_of_lt hlt]
  exact as_enum_arms_round_trip s.variants h.2.1 v

/-- Witness for C1 at the example specification, variant `V2`. -/
theorem C1_round_trip_witness :
    as_enum HelloSpec (into_struct HelloSpec ⟨2, by decide⟩) =
      Except.ok ⟨2, by decide⟩ :=
  C1_round_trip HelloSpec (by decide) ⟨2, by decide⟩

/-- C2: the classifier is total — on every raw value it yields exactly one of
the two cases, `Ok` of some variant or `Err` of the very value, and never
both. -/
theorem C2_totality (s : ConstEnumSpec) (x : Nat) :
    ((∃ v : Variant s, as_enum s ⟨x⟩ = Except.ok v) ∨
        as_enum s ⟨x⟩ = Except.error x) ∧
      ¬ ((∃ v : Variant s, as_enum s ⟨x⟩ = Except.ok v) ∧
        as_enum s ⟨x⟩ = Except.error x) := by
  constructor
  · cases hres : as_enum s ⟨x⟩ with
    | ok v => exact Or.inl ⟨v, rfl⟩
    | error e =>
        have he : e = x := ((as_enum_arms_error_iff s.variants x e).mp hres).1
        exact Or.inr (by rw [he])
  · rintro ⟨⟨v, hok⟩, herr⟩
    rw [hok] at herr
    exact Except.noConfusion herr

/-- Witness for C2 at the example specification and raw value 13. -/
theorem C2_totality_witness :
    ((∃ v : Variant HelloSpec, as_enum HelloSpec ⟨13⟩ = Except.ok v) ∨
        as_enum HelloSpec ⟨13⟩ = Except.error 13) ∧
      ¬ ((∃ v : Variant HelloSpec, as_enum HelloSpec ⟨13⟩ = Except.ok v) ∧
        as_enum HelloSpec ⟨13⟩ = Except.error 13) :=
  C2_totality HelloSpec 13

/-- C3: `Err e` is produced exactly when `e` is the container's raw value
and no declared variant value matches it (so the raw value is preserved
unchanged), and a match with some declared value is produced as the `Ok`
case. -/
theorem C3_unknown_lossless (s : ConstEnumSpec) (x : Nat) :
    (∀ e : Nat, as_enum s ⟨x⟩ = Except.error e ↔
        e = x ∧ ∀ p ∈ s.variants, p.2 ≠ x) ∧
      ((∃ p ∈ s.variants, p.2 = x) ↔ ∃ v : Variant s, as_enum s ⟨x⟩ = Except.ok v) := by
  refine ⟨fun e => as_enum_arms_error_iff s.variants x e, ?_, ?_⟩
  · rintro ⟨p, hp, hpx⟩
    cases hres : as_enum s ⟨x⟩ with
    | ok v => exact ⟨v, rfl⟩
    | error e =>
        have := ((as_enum_arms_error_iff s.variants x e).mp hres).2 p hp
        exact absurd hpx this
  · rintro ⟨v, hok⟩
    exact ⟨s.variants.get v, s.variants.get_mem v.1 v.2,
      as_enum_arms_ok_value s.variants x v hok⟩

/-- Witness for C3 at the example specification and raw value 5. -/
theorem C3_unknown_lossless_witness :
    as_enum HelloSpec ⟨5⟩ = Except.error 5 :=
  ((C3_unknown_lossless HelloSpec 5).1 5).mpr ⟨rfl, by decide⟩

/-- C4: with a declared validation interval `[low, high]`, a field value
outside the interval is classified `Err(value)` immediately, whatever the
declared variant list is — the interval gate precedes the variant match. -/
theorem C4_interval_short_circuit (s : ConstEnumSpec) (low high : Nat)
    (c : Container) (h : c.data < low ∨ high < c.data) :
    as_enum_interval s low high c = Except.error c.data := by
  unfold as_enum_interval
  rw [if_pos h]

/-- Witness for C4: the raw value 9 is itself a declared variant value, yet
outside the interval `[0, 5]` it is still classified `Err 9`. -/
theorem C4_interval_short_circuit_witness :
    as_enum_interval ⟨8, [("V9", 9)]⟩ 0 5 ⟨9⟩ = Except.error 9 :=
  C4_interval_short_circuit ⟨8, [("V9", 9)]⟩ 0 5 ⟨9⟩ (Or.inr (by decide))

/-- C5: a specification with duplicate variant names, duplicate variant
values, a value outside the field type's representable domain, or a value
outside a declared validation interval, is rejected at definition time: no
classifier/reconstructor pair is produced for it. -/
theorem C5_ill_formed_rejected (s : ConstEnumSpec) (interval : Option (Nat × Nat))
    (h : ¬ (s.variants.map Prod.fst).Nodup ∨ ¬ (s.variants.map Prod.snd).Nodup ∨
      (∃ p ∈ s.variants, s.domain ≤ p.2) ∨
      (∃ low high, interval = some (low, high) ∧
        ∃ p ∈ s.variants, p.2 < low ∨ high < p.2)) :
    defineEnum s interval = none := by
  have hneg : ¬ (validateSpec s interval = true) := by
    intro htrue
    rcases h with h | h | h | h
    · simp only [validateSpec, Bool.and_eq_true, decide_eq_true_eq] at htrue
      exact h htrue.1.1.1
    · simp only [validateSpec, Bool.and_eq_true, decide_eq_true_eq] at htrue
      exact h htrue.1.1.2
    · obtain ⟨p, hp, hge⟩ := h
      simp only [validateSpec, Bool.and_eq_true, decide_eq_true_eq,
        List.all_eq_true] at htrue
      exact absurd (htrue.1.2 p hp) (Nat.not_lt.mpr hge)
    · obtain ⟨low, high, rfl, p, hp, hout⟩ := h
      simp only [validateSpec, Bool.and_eq_true, decide_eq_true_eq,
        List.all_eq_true] at htrue
      obtain ⟨hlow, hhigh⟩ := htrue.2 p hp
      rcases hout with hout | hout
      · exact absurd hlow (Nat.not_le.mpr hout)
      · exact absurd hhigh (Nat.not_le.mpr hout)
  unfold defineEnum
  rw [if_neg hneg]

/-- Witness for C5: a specification with two variants sharing the value 3 is
rejected. -/
theorem C5_ill_formed_rejected_witness :
    defineEnum ⟨8, [("A", 3), ("B", 3)]⟩ none = none :=
  C5_ill_formed_rejected ⟨8, [("A", 3), ("B", 3)]⟩ none (Or.inr (Or.inl (by decide)))

/-- C6: for every declared variant of a well-formed specification, the
generated named constant on the container type equals the container produced
by the generated `Into<Struct>` conversion. -/
theorem C6_const_agrees (s : ConstEnumSpec) (h : specWellFormed s) (v : Variant s) :
    def_const s v = into_struct s v := by
  unfold def_const into_struct variantValue
  rw [Nat.mod_eq_of_lt (h.2.2 _ (s.variants.get_mem v.1 v.2))]

/-- Witness for C6 at the example specification, variant `V4`. -/
theorem C6_const_agrees_witness :
    def_const HelloSpec ⟨4, by decide⟩ = into_struct HelloSpec ⟨4, by decide⟩ :=
  C6_const_agrees HelloSpec (by decide) ⟨4, by decide⟩

/-- C7: for every declared variant of a well-formed specification, the
reconstructed container's classified field equals the variant's bound raw
value. -/
theorem C7_reconstructor_value (s : ConstEnumSpec) (h : specWellFormed s)
    (v : Variant s) : (into_struct s v).data = variantValue s v := by
  unfold into_struct
  exact Nat.mod_eq_of_lt (h.2.2 _ (s.variants.get_mem v.1 v.2))

/-- Witness for C7 at the example specification, variant `V1`. -/
theorem C7_reconstructor_value_witness :
    (into_struct HelloSpec ⟨1, by decide⟩).data = variantValue HelloSpec ⟨1, by decide⟩ :=
  C7_reconstructor_value HelloSpec (by decide) ⟨1, by decide⟩

/-- C8: on the documented example (`V0: 0, V1: 1, V2: 12, V3: 13, V4: 22` over
`u8`): field 13 classifies to `Ok V3`, field 33 to `Err 33`, field 5 to
`Err 5`, and reconstructing `V2` yields a container with field 12. -/
theorem C8_example :
    as_enum HelloSpec ⟨13⟩ = Except.ok ⟨3, by decide⟩ ∧
      as_enum HelloSpec ⟨33⟩ = Except.error 33 ∧
      as_enum HelloSpec ⟨5⟩ = Except.error 5 ∧
      (into_struct HelloSpec ⟨2, by decide⟩).data = 12 := by
  refine ⟨?_, ?_, ?_, ?_⟩ <;> decide

/-- C9: if classifying a representable container yields `Ok v`, then
reconstructing `v` recovers a container with the original field value. -/
theorem C9_converse_round_trip (s : ConstEnumSpec) (c : Container) (v : Variant s)
    (hdom : c.data < s.domain) (hok : as_enum s c = Except.ok v) :
    (into_struct s v).data = c.data := by
  have hval : (s.variants.get v).2 = c.data :=
    as_enum_arms_ok_value s.variants c.data v hok
  unfold into_struct variantValue
  rw [hval]
  exact Nat.mod_eq_of_lt hdom

/-- Witness for C9 at the example specification: classifying field 22 yields
`V4`, whose reconstruction restores field 22. -/
theorem C9_converse_round_trip_witness :
    (into_struct HelloSpec ⟨4, by decide⟩).data = Container.data ⟨22⟩ :=
  C9_converse_round_trip HelloSpec ⟨22⟩ ⟨4, by decide⟩ (by decide) (by decide)

/-- C10: classification is a pure function of the classified field — equal
field values give identical results, and re-classifying the same container
gives the same result. -/
theorem C10_determinism (s : ConstEnumSpec) (c₁ c₂ : Container)
    (h : c₁.data = c₂.data) :
    as_enum s c₁ = as_enum s c₂ ∧ as_enum s c₁ = as_enum s c₁ :=
  ⟨by unfold as_enum; rw [h], rfl⟩

/-- Witness for C10 on two containers both holding 7. -/
theorem C10_determinism_witness :
    as_enum HelloSpec ⟨7⟩ = as_enum HelloSpec ⟨7⟩ ∧
      as_enum HelloSpec ⟨7⟩ = as_enum HelloSpec ⟨7⟩ :=
  C10_determinism HelloSpec ⟨7⟩ ⟨7⟩ rfl
